import Mathlib

/-!
Verification model of the compaction engine in `src/backend/main.py`
(VetAI backend).  The Python source operates on JSON dictionaries loaded
from disk; we embed the fields that the compaction code reads.  Machine
specifics that the claims do not touch:

* `hashlib.sha256` over the canonical `json.dumps(content_fields,
  sort_keys=True)` serialization is modelled as an idealized injective
  digest: the `Digest.sha256` constructor carries the canonical
  (key-sorted) field list that the source serializes and hashes.
  `json.dumps` is injective on these fixed-shape dictionaries, and the
  spec itself relies on collision resistance of the 256-bit hash.
* `time.time()` values are rationals rather than IEEE floats; the rate
  limiter only compares and subtracts them.
* Filesystem paths are canonical component lists (`Path.resolve` is an OS
  call; the model works with already-resolved paths, which is the form in
  which `_validate_backup_directory` compares them).
* `space_saved_mb` (a two-decimal float rendering of
  `space_saved_bytes`) is display-only and not modelled.
-/

/-- A consultation record as loaded by `json.load` in `compact_duplicates`.
All fields are read with `dict.get`, so each is an `Option String`
(`none` = key absent or JSON `null`). -/
structure Consultation where
  id : Option String
  timestamp : Option String
  vetName : Option String
  ownerName : Option String
  patientName : Option String
  species : Option String
  summary : Option String
  transcription : Option String
deriving DecidableEq

/-- The `content_fields` dictionary of `_compute_content_hash`, in the
order produced by `json.dumps(..., sort_keys=True)` (keys sorted
lexicographically). -/
def contentFields (c : Consultation) : List (String × Option String) :=
  [("ownerName", c.ownerName),
   ("patientName", c.patientName),
   ("species", c.species),
   ("summary", c.summary),
   ("transcription", c.transcription),
   ("vetName", c.vetName)]

/-- `v is None or v == ""` from the all-empty check in
`_compute_content_hash`. -/
def isEmptyVal (v : Option String) : Bool :=
  match v with
  | none => true
  | some s => s == ""

/-- The result of `_compute_content_hash`: either the empty-string
sentinel (`""`) or a sha256 hex digest.  The digest is modelled by the
canonical field list it is computed from (idealized injective hash). -/
inductive Digest where
  | empty : Digest
  | sha256 (canon : List (String × Option String)) : Digest
deriving DecidableEq

/-- `_compute_content_hash` from `src/backend/main.py`: returns the empty
sentinel when every semantic field is `None` or `""`, otherwise the
digest of the canonical serialization of `content_fields`. -/
def compute_content_hash (c : Consultation) : Digest :=
  if (contentFields c).all (fun kv => isEmptyVal kv.2) then
    Digest.empty
  else
    Digest.sha256 (contentFields c)

/-- Append `c` to the bucket of key `h` in an insertion-ordered
association list, creating the bucket at the end if absent.  This is the
`if content_hash not in hash_map: hash_map[content_hash] = [];
hash_map[content_hash].append(consultation)` pattern on a Python dict
(insertion-ordered). -/
def insertBucket (m : List (Digest × List Consultation)) (h : Digest)
    (c : Consultation) : List (Digest × List Consultation) :=
  match m with
  | [] => [(h, [c])]
  | (k, g) :: rest =>
      if k = h then (k, g ++ [c]) :: rest else (k, g) :: insertBucket rest h c

/-- One iteration of the loop in `_find_duplicate_consultations`:
records with the empty sentinel hash are skipped (`continue`), others
are appended to their hash's bucket. -/
def hashStep (m : List (Digest × List Consultation)) (c : Consultation) :
    List (Digest × List Consultation) :=
  if compute_content_hash c = Digest.empty then m
  else insertBucket m (compute_content_hash c) c

/-- The `hash_map` built by `_find_duplicate_consultations` before the
final filter. -/
def buildHashMap (recs : List Consultation) : List (Digest × List Consultation) :=
  recs.foldl hashStep []

/-- `_find_duplicate_consultations`: keep only buckets with more than one
member. -/
def find_duplicate_consultations (recs : List Consultation) :
    List (Digest × List Consultation) :=
  (buildHashMap recs).filter (fun hg => 1 < hg.2.length)

/-- Bucket lookup in the association list (first match; keys are unique
by construction). -/
def bucketOf (m : List (Digest × List Consultation)) (h : Digest) :
    List Consultation :=
  match m with
  | [] => []
  | (k, g) :: rest => if k = h then g else bucketOf rest h

/-- A record all of whose semantic fields are `None`/empty. -/
def emptyContent (c : Consultation) : Bool :=
  (contentFields c).all (fun kv => isEmptyVal kv.2)

-- Sanity examples (content-hash behaviour on concrete records).
def recBlank : Consultation :=
  ⟨some "idA", some "2024-01-01", none, none, none, none, none, none⟩

def recBlankStr : Consultation :=
  ⟨some "idB", some "2024-01-02", some "", some "", some "", some "", some "", some ""⟩

example : compute_content_hash recBlank = Digest.empty := by decide
example : compute_content_hash recBlankStr = Digest.empty := by decide

/-- Code-point lexicographic `≤` on character lists: Python's string
comparison order (identical to Lean's code-point order, but written
structurally so that the kernel can evaluate it on literals). -/
def charsLe : List Char → List Char → Bool
  | [], _ => true
  | _ :: _, [] => false
  | a :: as, b :: bs => a < b || (a = b && charsLe as bs)

theorem charsLe_refl (x : List Char) : charsLe x x = true := by
  induction x with
  | nil => rfl
  | cons a as ih => simp [charsLe, ih]

theorem charsLe_total (x y : List Char) :
    charsLe x y = true ∨ charsLe y x = true := by
  induction x generalizing y with
  | nil => exact Or.inl rfl
  | cons a as ih =>
    cases y with
    | nil => exact Or.inr rfl
    | cons b bs =>
      rcases lt_trichotomy a b with hab | hab | hab
      · exact Or.inl (by simp [charsLe, hab])
      · subst hab
        rcases ih bs with h | h
        · exact Or.inl (by simp [charsLe, h])
        · exact Or.inr (by simp [charsLe, h])
      · exact Or.inr (by simp [charsLe, hab])

theorem charsLe_antisymm {x y : List Char} (hxy : charsLe x y = true)
    (hyx : charsLe y x = true) : x = y := by
  induction x generalizing y with
  | nil =>
    cases y with
    | nil => rfl
    | cons b bs => simp [charsLe] at hyx
  | cons a as ih =>
    cases y with
    | nil => simp [charsLe] at hxy
    | cons b bs =>
      simp only [charsLe, Bool.or_eq_true, Bool.and_eq_true, decide_eq_true_eq]
        at hxy hyx
      rcases hxy with hab | ⟨hab, htl⟩
      · rcases hyx with hba | ⟨hba, -⟩
        · exact absurd hba (not_lt_of_lt hab)
        · exact absurd hba (ne_of_gt hab)
      · subst hab
        rcases hyx with hba | ⟨-, htl'⟩
        · exact absurd hba (lt_irrefl a)
        · rw [ih htl htl']

theorem charsLe_trans {x y z : List Char} (hxy : charsLe x y = true)
    (hyz : charsLe y z = true) : charsLe x z = true := by
  induction x generalizing y z with
  | nil => rfl
  | cons a as ih =>
    cases y with
    | nil => simp [charsLe] at hxy
    | cons b bs =>
      cases z with
      | nil => simp [charsLe] at hyz
      | cons c cs =>
        simp only [charsLe, Bool.or_eq_true, Bool.and_eq_true,
          decide_eq_true_eq] at hxy hyz ⊢
        rcases hxy with hab | ⟨hab, htl⟩
        · rcases hyz with hbc | ⟨hbc, -⟩
          · exact Or.inl (lt_trans hab hbc)
          · exact Or.inl (hbc ▸ hab)
        · subst hab
          rcases hyz with hbc | ⟨hbc, htl'⟩
          · exact Or.inl hbc
          · exact Or.inr ⟨hbc, ih htl htl'⟩

/-- Python tuple `≤` on `(timestamp, id)` pairs of strings: compare the
first components, tie-break on the second. -/
def keyLe (a b : String × String) : Bool :=
  if a.1.data = b.1.data then charsLe a.2.data b.2.data
  else charsLe a.1.data b.1.data

theorem keyLe_total (a b : String × String) :
    keyLe a b = true ∨ keyLe b a = true := by
  unfold keyLe
  by_cases h : a.1.data = b.1.data
  · rw [if_pos h, if_pos h.symm]
    exact charsLe_total _ _
  · rw [if_neg h, if_neg (fun he => h he.symm)]
    exact charsLe_total _ _

theorem keyLe_antisymm {a b : String × String} (hab : keyLe a b = true)
    (hba : keyLe b a = true) : a = b := by
  unfold keyLe at hab hba
  by_cases h : a.1.data = b.1.data
  · rw [if_pos h] at hab
    rw [if_pos h.symm] at hba
    have h2 : a.2.data = b.2.data := charsLe_antisymm hab hba
    have e1 : a.1 = b.1 := String.ext h
    have e2 : a.2 = b.2 := String.ext h2
    exact Prod.ext e1 e2
  · rw [if_neg h] at hab
    rw [if_neg (fun he => h he.symm)] at hba
    exact absurd (charsLe_antisymm hab hba) h

theorem keyLe_trans {a b c : String × String} (hab : keyLe a b = true)
    (hbc : keyLe b c = true) : keyLe a c = true := by
  unfold keyLe at hab hbc ⊢
  by_cases h1 : a.1.data = b.1.data <;> by_cases h2 : b.1.data = c.1.data
  · rw [if_pos h1] at hab
    rw [if_pos h2] at hbc
    rw [if_pos (h1.trans h2)]
    exact charsLe_trans hab hbc
  · rw [if_pos h1] at hab
    rw [if_neg h2] at hbc
    rw [if_neg (fun he => h2 (h1.symm.trans he)), h1]
    exact hbc
  · rw [if_neg h1] at hab
    rw [if_pos h2] at hbc
    rw [if_neg (fun he => h1 (he.trans h2.symm)), ← h2]
    exact hab
  · rw [if_neg h1] at hab
    rw [if_neg h2] at hbc
    have hac : charsLe a.1.data c.1.data = true := charsLe_trans hab hbc
    have hne : a.1.data ≠ c.1.data := by
      intro he
      have : charsLe b.1.data a.1.data = true := he ▸ hbc
      exact h1 (charsLe_antisymm hab this)
    rw [if_neg hne]
    exact hac

/-- The sort key of `compact_duplicates`:
`(c.get("timestamp", ""), c.get("id", ""))`. -/
def sortKey (c : Consultation) : String × String :=
  (c.timestamp.getD "", c.id.getD "")

/-- `a` comes no later than `b` in `sorted(group, key=sortKey,
reverse=True)`: descending key order.  Python's sort is stable, and a
stable sort is uniquely determined by its comparator, so the stable
`List.insertionSort` over this relation models `sorted` faithfully. -/
def descBefore (a b : Consultation) : Prop :=
  keyLe (sortKey b) (sortKey a) = true

instance : DecidableRel descBefore := fun a b =>
  inferInstanceAs (Decidable (keyLe (sortKey b) (sortKey a) = true))

instance : IsTotal Consultation descBefore :=
  ⟨fun a b => (keyLe_total (sortKey a) (sortKey b)).symm⟩

instance : IsTrans Consultation descBefore :=
  ⟨fun _ _ _ h₁ h₂ => keyLe_trans h₂ h₁⟩

/-- `sorted_group = sorted(group, key=..., reverse=True)` from
`compact_duplicates`. -/
def sortedGroup (g : List Consultation) : List Consultation :=
  List.insertionSort descBefore g

/-- The survivor kept by `compact_duplicates`: `sorted_group[0]`. -/
def selectSurvivor (g : List Consultation) : Option Consultation :=
  (sortedGroup g).head?

/-- The victims of a group: `to_remove = sorted_group[1:]`. -/
def victimsOfGroup (g : List Consultation) : List Consultation :=
  (sortedGroup g).tail

/-- C3 as stated is false: a record whose six semantic fields are all
absent and a record whose six semantic fields are all `""` receive the
same (empty-sentinel) fingerprint although the field subsets are not
field-wise equal. -/
theorem fingerprint_iff_counterexample :
    compute_content_hash recBlank = compute_content_hash recBlankStr ∧
    contentFields recBlank ≠ contentFields recBlankStr := by
  decide

/-- C3 (amended): fingerprints are equal iff the semantic field subsets
are field-wise equal or both records have entirely empty/absent semantic
subsets (both receive the empty sentinel); and changing only `id` or
`timestamp` never changes the fingerprint. -/
theorem fingerprint_eq_iff :
    (∀ c₁ c₂ : Consultation,
      compute_content_hash c₁ = compute_content_hash c₂ ↔
        (contentFields c₁ = contentFields c₂ ∨
          (emptyContent c₁ ∧ emptyContent c₂))) ∧
    (∀ (c : Consultation) (i t : Option String),
      compute_content_hash { c with id := i, timestamp := t } =
        compute_content_hash c) := by
  constructor
  · intro c₁ c₂
    unfold compute_content_hash emptyContent
    by_cases h₁ : (contentFields c₁).all (fun kv => isEmptyVal kv.2) = true <;>
      by_cases h₂ : (contentFields c₂).all (fun kv => isEmptyVal kv.2) = true
    · simp [h₁, h₂]
    · simp only [if_pos h₁, if_neg h₂]
      constructor
      · intro he; exact absurd he (by simp)
      · rintro (hfe | ⟨-, hb⟩)
        · rw [hfe] at h₁; exact absurd h₁ h₂
        · exact absurd hb h₂
    · simp only [if_neg h₁, if_pos h₂]
      constructor
      · intro he; exact absurd he (by simp)
      · rintro (hfe | ⟨ha, -⟩)
        · rw [← hfe] at h₂; exact absurd h₂ h₁
        · exact absurd ha h₁
    · simp only [if_neg h₁, if_neg h₂, Digest.sha256.injEq]
      constructor
      · exact Or.inl
      · rintro (hfe | ⟨ha, -⟩)
        · exact hfe
        · exact absurd ha h₁
  · intro c i t
    rfl

-- ## Grouping lemmas: buckets of `buildHashMap` are filters of the input

theorem bucketOf_insertBucket (m : List (Digest × List Consultation))
    (k h : Digest) (c : Consultation) :
    bucketOf (insertBucket m k c) h =
      if k = h then bucketOf m h ++ [c] else bucketOf m h := by
  induction m with
  | nil =>
    by_cases hk : k = h <;> simp [insertBucket, bucketOf, hk]
  | cons p rest ih =>
    obtain ⟨k', g⟩ := p
    by_cases h1 : k' = k
    · subst h1
      by_cases h2 : k' = h
      · subst h2
        simp [insertBucket, bucketOf]
      · simp [insertBucket, bucketOf, h2]
    · by_cases h2 : k' = h
      · subst h2
        have hk : ¬k = k' := fun he => h1 he.symm
        simp [insertBucket, bucketOf, h1, hk]
      · simp [insertBucket, bucketOf, h1, h2, ih]

theorem keys_insertBucket (m : List (Digest × List Consultation))
    (k : Digest) (c : Consultation) :
    (insertBucket m k c).map Prod.fst =
      if k ∈ m.map Prod.fst then m.map Prod.fst
      else m.map Prod.fst ++ [k] := by
  induction m with
  | nil => simp [insertBucket]
  | cons p rest ih =>
    obtain ⟨k', g⟩ := p
    by_cases h1 : k' = k
    · subst h1
      simp [insertBucket]
    · have hne : ¬k = k' := fun he => h1 he.symm
      by_cases h2 : k ∈ rest.map Prod.fst <;>
        simp [insertBucket, h1, h2, hne, ih]

theorem mem_insertBucket_key {m : List (Digest × List Consultation)}
    {k : Digest} {c : Consultation} {p : Digest × List Consultation}
    (hp : p ∈ insertBucket m k c) : p.1 = k ∨ p.1 ∈ m.map Prod.fst := by
  have : p.1 ∈ (insertBucket m k c).map Prod.fst := List.mem_map_of_mem _ hp
  rw [keys_insertBucket] at this
  by_cases h : k ∈ m.map Prod.fst
  · rw [if_pos h] at this
    exact Or.inr this
  · rw [if_neg h] at this
    rcases List.mem_append.mp this with hm | hk
    · exact Or.inr hm
    · exact Or.inl (List.mem_singleton.mp hk)

theorem buildHashMap_invariant (recs : List Consultation) :
    (∀ p ∈ buildHashMap recs, p.1 ≠ Digest.empty) ∧
    ((buildHashMap recs).map Prod.fst).Nodup := by
  suffices h : ∀ (l : List Consultation) (m : List (Digest × List Consultation)),
      (∀ p ∈ m, p.1 ≠ Digest.empty) → (m.map Prod.fst).Nodup →
      (∀ p ∈ l.foldl hashStep m, p.1 ≠ Digest.empty) ∧
      ((l.foldl hashStep m).map Prod.fst).Nodup by
    exact h recs [] (by simp) (by simp)
  intro l
  induction l with
  | nil => intro m h1 h2; exact ⟨h1, h2⟩
  | cons c l ih =>
    intro m h1 h2
    rw [List.foldl_cons]
    simp only [hashStep]
    by_cases hc : compute_content_hash c = Digest.empty
    · rw [if_pos hc]
      exact ih m h1 h2
    · rw [if_neg hc]
      apply ih
      · intro p hp
        rcases mem_insertBucket_key hp with he | hm
        · rw [he]; exact hc
        · obtain ⟨q, hq, hqe⟩ := List.mem_map.mp hm
          rw [← hqe]; exact h1 q hq
      · rw [keys_insertBucket]
        by_cases hk : compute_content_hash c ∈ m.map Prod.fst
        · rw [if_pos hk]; exact h2
        · rw [if_neg hk]
          simpa using List.Nodup.append h2 (List.nodup_singleton _)
            (by simpa using hk)

theorem bucketOf_foldl (l : List Consultation)
    (m : List (Digest × List Consultation)) (h : Digest)
    (hne : h ≠ Digest.empty) :
    bucketOf (l.foldl hashStep m) h =
      bucketOf m h ++ l.filter (fun c => compute_content_hash c = h) := by
  induction l generalizing m with
  | nil => simp
  | cons c l ih =>
    rw [List.foldl_cons]
    simp only [hashStep]
    by_cases hc : compute_content_hash c = Digest.empty
    · have hch : ¬(compute_content_hash c = h) := fun he => hne (he ▸ hc)
      rw [if_pos hc, ih m, List.filter_cons_of_neg (by simpa using hch)]
    · rw [if_neg hc, ih, bucketOf_insertBucket]
      by_cases hch : compute_content_hash c = h
      · rw [if_pos hch, List.filter_cons_of_pos (by simpa using hch),
          List.append_assoc]
        rfl
      · rw [if_neg hch, List.filter_cons_of_neg (by simpa using hch)]

theorem bucketOf_buildHashMap (recs : List Consultation) (h : Digest)
    (hne : h ≠ Digest.empty) :
    bucketOf (buildHashMap recs) h =
      recs.filter (fun c => compute_content_hash c = h) := by
  rw [buildHashMap, bucketOf_foldl recs [] h hne]
  rfl

theorem mem_assoc_eq_bucketOf {m : List (Digest × List Consultation)}
    (hnd : (m.map Prod.fst).Nodup) {h : Digest} {g : List Consultation}
    (hmem : (h, g) ∈ m) : bucketOf m h = g := by
  induction m with
  | nil => cases hmem
  | cons p rest ih =>
    obtain ⟨k', g'⟩ := p
    simp only [List.map_cons, List.nodup_cons] at hnd
    rcases List.mem_cons.mp hmem with he | hm
    · injection he with he1 he2
      show (if k' = h then g' else bucketOf rest h) = g
      rw [if_pos he1.symm, ← he2]
    · have hk : k' ≠ h := by
        intro he
        subst he
        exact hnd.1 (List.mem_map_of_mem _ hm)
      show (if k' = h then g' else bucketOf rest h) = g
      rw [if_neg hk]
      exact ih hnd.2 hm

theorem bucketOf_ne_nil_mem {m : List (Digest × List Consultation)} {h : Digest}
    (hne : bucketOf m h ≠ []) : (h, bucketOf m h) ∈ m := by
  induction m with
  | nil => exact absurd rfl hne
  | cons p rest ih =>
    obtain ⟨k', g'⟩ := p
    by_cases hk : k' = h
    · have hb : bucketOf ((k', g') :: rest) h = g' := by
        show (if k' = h then g' else _) = g'
        rw [if_pos hk]
      rw [hb, ← hk]
      exact List.mem_cons_self _ _
    · have hb : bucketOf ((k', g') :: rest) h = bucketOf rest h := by
        show (if k' = h then g' else _) = _
        rw [if_neg hk]
      rw [hb] at hne ⊢
      exact List.mem_cons_of_mem _ (ih hne)

/-- Characterization of the groups `_find_duplicate_consultations`
returns: exactly the non-sentinel fingerprints whose bucket (the
subsequence of input records bearing that fingerprint) has 2+ members. -/
theorem mem_find_iff {recs : List Consultation} {h : Digest}
    {g : List Consultation} :
    (h, g) ∈ find_duplicate_consultations recs ↔
      h ≠ Digest.empty ∧
      g = recs.filter (fun c => compute_content_hash c = h) ∧
      2 ≤ g.length := by
  constructor
  · intro hm
    rw [find_duplicate_consultations, List.mem_filter] at hm
    obtain ⟨hmem, hlen⟩ := hm
    have hinv := buildHashMap_invariant recs
    have hne : h ≠ Digest.empty := hinv.1 _ hmem
    have hg : bucketOf (buildHashMap recs) h = g := mem_assoc_eq_bucketOf hinv.2 hmem
    refine ⟨hne, ?_, ?_⟩
    · rw [← hg, bucketOf_buildHashMap recs h hne]
    · simpa using hlen
  · rintro ⟨hne, hg, hlen⟩
    rw [find_duplicate_consultations, List.mem_filter]
    have hb : bucketOf (buildHashMap recs) h = g := by
      rw [bucketOf_buildHashMap recs h hne, ← hg]
    constructor
    · rw [← hb]
      apply bucketOf_ne_nil_mem
      rw [hb]
      intro he
      rw [he] at hlen
      simp at hlen
    · simpa using hlen

/-- The empty sentinel is returned exactly for records with entirely
empty/absent semantic fields. -/
theorem hash_eq_empty_iff (c : Consultation) :
    compute_content_hash c = Digest.empty ↔ emptyContent c = true := by
  unfold compute_content_hash emptyContent
  by_cases hc : (contentFields c).all (fun kv => isEmptyVal kv.2) = true
  · rw [if_pos hc]
    simp [hc]
  · rw [if_neg hc]
    simp [hc]

-- Concrete fixtures: two records with identical semantic content and
-- distinct ids/timestamps (a duplicate pair), used by the witnesses.
def fixA : Consultation :=
  ⟨some "id-a", some "2024-01-01T10:00:00", some "Dr. Smith", some "Jane",
   some "Rex", some "dog", some "Annual checkup", none⟩

def fixB : Consultation :=
  ⟨some "id-b", some "2024-01-02T10:00:00", some "Dr. Smith", some "Jane",
   some "Rex", some "dog", some "Annual checkup", none⟩

example : compute_content_hash fixA = compute_content_hash fixB := by decide
example : find_duplicate_consultations [fixA, fixB] =
    [(compute_content_hash fixA, [fixA, fixB])] := by decide

/-- C4: every group returned by `_find_duplicate_consultations` has a
non-empty fingerprint and at least two members; no record whose entire
semantic field subset is empty/absent is a member of any group, so two
all-empty records are never placed in the same duplicate group. -/
theorem empty_content_excluded (recs : List Consultation) (h : Digest)
    (g : List Consultation)
    (hg : (h, g) ∈ find_duplicate_consultations recs) :
    h ≠ Digest.empty ∧ 2 ≤ g.length ∧
    (∀ a ∈ g, emptyContent a = false) ∧
    (∀ a b : Consultation, emptyContent a = true → emptyContent b = true →
      ¬(a ∈ g ∧ b ∈ g)) := by
  obtain ⟨hne, hgf, hlen⟩ := mem_find_iff.mp hg
  have hmem : ∀ a ∈ g, emptyContent a = false := by
    intro a ha
    rw [hgf] at ha
    have hha : compute_content_hash a = h := by
      simpa using List.of_mem_filter ha
    cases hEC : emptyContent a with
    | false => rfl
    | true =>
      exact absurd (hha.symm.trans ((hash_eq_empty_iff a).mpr hEC)) hne
  refine ⟨hne, hlen, hmem, ?_⟩
  rintro a b hea heb ⟨hag, -⟩
  rw [hmem a hag] at hea
  cases hea

/-- C4 witness: the duplicate pair fixture instantiates the theorem. -/
theorem empty_content_excluded_witness :
    compute_content_hash fixA ≠ Digest.empty ∧
    2 ≤ ([fixA, fixB] : List Consultation).length ∧
    (∀ a ∈ ([fixA, fixB] : List Consultation), emptyContent a = false) ∧
    (∀ a b : Consultation, emptyContent a = true → emptyContent b = true →
      ¬(a ∈ ([fixA, fixB] : List Consultation) ∧
        b ∈ ([fixA, fixB] : List Consultation))) :=
  empty_content_excluded [fixA, fixB] (compute_content_hash fixA)
    [fixA, fixB] (by decide)

theorem keyLe_refl (a : String × String) : keyLe a a = true := by
  unfold keyLe
  rw [if_pos rfl]
  exact charsLe_refl _

/-- The head of the descending-sorted group is a member and is maximal
under the `(timestamp, id)` key among all members. -/
theorem head_sortedGroup_max {g : List Consultation} {s : Consultation}
    (hs : selectSurvivor g = some s) :
    s ∈ g ∧ ∀ x ∈ g, keyLe (sortKey x) (sortKey s) = true := by
  have hsorted : List.Sorted descBefore (sortedGroup g) :=
    List.sorted_insertionSort descBefore g
  have hperm : (sortedGroup g).Perm g := List.perm_insertionSort descBefore g
  rw [selectSurvivor] at hs
  cases hsg : sortedGroup g with
  | nil => rw [hsg] at hs; cases hs
  | cons a t =>
    rw [hsg] at hs
    have ha : a = s := by simpa using hs
    subst ha
    rw [hsg] at hsorted hperm
    constructor
    · exact hperm.mem_iff.mp (List.mem_cons_self a t)
    · intro x hx
      rcases List.mem_cons.mp (hperm.mem_iff.mpr hx) with he | ht
      · rw [he]
        exact keyLe_refl _
      · exact (List.sorted_cons.mp hsorted).1 x ht

/-- Key injectivity on a record list whose ids are present and pairwise
distinct (the data-model invariant `id` globally unique). -/
theorem sortKey_inj_of_ids {recs : List Consultation}
    (hnd : (recs.map Consultation.id).Nodup)
    (hsome : ∀ c ∈ recs, c.id ≠ none) :
    ∀ a ∈ recs, ∀ b ∈ recs, sortKey a = sortKey b → a = b := by
  intro a ha b hb hk
  apply List.inj_on_of_nodup_map hnd ha hb
  have h2 : a.id.getD "" = b.id.getD "" := congrArg Prod.snd hk
  cases hida : a.id with
  | none => exact absurd hida (hsome a ha)
  | some x =>
    cases hidb : b.id with
    | none => exact absurd hidb (hsome b hb)
    | some y =>
      rw [hida, hidb] at h2
      simpa [hida, hidb] using h2

/-- Two permuted groups with member-injective keys have the same
survivor. -/
theorem survivor_eq_of_perm {g g' : List Consultation} (hperm : g.Perm g')
    (hkeys : ∀ a ∈ g, ∀ b ∈ g, sortKey a = sortKey b → a = b)
    {s s' : Consultation} (hs : selectSurvivor g = some s)
    (hs' : selectSurvivor g' = some s') : s = s' := by
  obtain ⟨hsm, hsmax⟩ := head_sortedGroup_max hs
  obtain ⟨hsm', hsmax'⟩ := head_sortedGroup_max hs'
  have hs'g : s' ∈ g := hperm.mem_iff.mpr hsm'
  have hsg' : s ∈ g' := hperm.mem_iff.mp hsm
  have h1 : keyLe (sortKey s') (sortKey s) = true := hsmax s' hs'g
  have h2 : keyLe (sortKey s) (sortKey s') = true := hsmax' s hsg'
  exact hkeys s hsm s' hs'g (keyLe_antisymm h2 h1)

/-- C1: for every duplicate group produced by grouping (over a record
list with present, pairwise-distinct ids), the survivor selected by
`sorted(group, key=(timestamp, id), reverse=True)[0]` is the unique
member maximal under the lexicographic `(timestamp, id)` order, and the
same record is selected from any permutation of the input record
list. -/
theorem survivor_deterministic (recs recs' : List Consultation)
    (hperm : recs.Perm recs')
    (hnd : (recs.map Consultation.id).Nodup)
    (hsome : ∀ c ∈ recs, c.id ≠ none)
    (h : Digest) (g g' : List Consultation)
    (hg : (h, g) ∈ find_duplicate_consultations recs)
    (hg' : (h, g') ∈ find_duplicate_consultations recs') :
    ∃ s, selectSurvivor g = some s ∧ selectSurvivor g' = some s ∧
      s ∈ g ∧ (∀ x ∈ g, keyLe (sortKey x) (sortKey s) = true) ∧
      (∀ x ∈ g, keyLe (sortKey s) (sortKey x) = true → x = s) := by
  obtain ⟨hne, hgf, hlen⟩ := mem_find_iff.mp hg
  obtain ⟨-, hgf', hlen'⟩ := mem_find_iff.mp hg'
  have hsub : ∀ a ∈ g, a ∈ recs := by
    intro a ha
    rw [hgf] at ha
    exact (List.mem_filter.mp ha).1
  have hkeys : ∀ a ∈ g, ∀ b ∈ g, sortKey a = sortKey b → a = b := by
    intro a ha b hb
    exact sortKey_inj_of_ids hnd hsome a (hsub a ha) b (hsub b hb)
  have hgg' : g.Perm g' := by
    rw [hgf, hgf']
    exact hperm.filter _
  -- the sorted group is nonempty, so a head exists
  have hglen : 0 < (sortedGroup g).length := by
    rw [sortedGroup, (List.perm_insertionSort descBefore g).length_eq]
    omega
  obtain ⟨s, t, hst⟩ := List.exists_cons_of_ne_nil (List.ne_nil_of_length_pos hglen)
  have hs : selectSurvivor g = some s := by rw [selectSurvivor, hst]; rfl
  have hglen' : 0 < (sortedGroup g').length := by
    rw [sortedGroup, (List.perm_insertionSort descBefore g').length_eq]
    omega
  obtain ⟨s', t', hst'⟩ :=
    List.exists_cons_of_ne_nil (List.ne_nil_of_length_pos hglen')
  have hs' : selectSurvivor g' = some s' := by rw [selectSurvivor, hst']; rfl
  have hss' : s = s' := survivor_eq_of_perm hgg' hkeys hs hs'
  obtain ⟨hsm, hsmax⟩ := head_sortedGroup_max hs
  refine ⟨s, hs, hss' ▸ hs', hsm, hsmax, ?_⟩
  intro x hx hxe
  exact hkeys x hx s hsm (keyLe_antisymm (hsmax x hx) hxe)

/-- C1 witness: the duplicate pair fixture in both orders selects
`fixB` (newest timestamp) as the unique maximal survivor. -/
theorem survivor_deterministic_witness :
    ∃ s, selectSurvivor [fixA, fixB] = some s ∧
      selectSurvivor [fixB, fixA] = some s ∧
      s ∈ [fixA, fixB] ∧
      (∀ x ∈ ([fixA, fixB] : List Consultation),
        keyLe (sortKey x) (sortKey s) = true) ∧
      (∀ x ∈ ([fixA, fixB] : List Consultation),
        keyLe (sortKey s) (sortKey x) = true → x = s) :=
  survivor_deterministic [fixA, fixB] [fixB, fixA]
    (List.Perm.swap fixB fixA []) (by decide) (by decide)
    (compute_content_hash fixA) [fixA, fixB] [fixB, fixA]
    (by decide) (by decide)

-- ## The destructive-operation gate and the compaction orchestrator

/-- `RATE_LIMIT_WINDOW_SECONDS` (timestamps are exact rationals standing
in for `time.time()` floats; the limiter only subtracts and compares
them). -/
def RATE_LIMIT_WINDOW_SECONDS : ℚ := 60

/-- `RATE_LIMIT_MAX_REQUESTS`. -/
def RATE_LIMIT_MAX_REQUESTS : ℕ := 3

/-- The list-comprehension prune in `_check_rate_limit`: keep timestamps
with `current_time - ts < RATE_LIMIT_WINDOW_SECONDS`. -/
def pruneWindow (now : ℚ) (hist : List ℚ) : List ℚ :=
  hist.filter (fun ts => now - ts < RATE_LIMIT_WINDOW_SECONDS)

/-- `_check_rate_limit` on one client's history: prune expired
timestamps, reject when `max_requests` remain, otherwise record the
current time.  Returns (allowed, new history). -/
def check_rate_limit (hist : List ℚ) (now : ℚ) (maxReq : ℕ) :
    Bool × List ℚ :=
  let pruned := pruneWindow now hist
  if maxReq ≤ pruned.length then (false, pruned)
  else (true, pruned ++ [now])

/-- `_rate_limit_store[client_id]` with the `if client_id not in ...`
default of `[]`. -/
def getHistory (store : List (String × List ℚ)) (c : String) : List ℚ :=
  match store with
  | [] => []
  | (k, h) :: rest => if k = c then h else getHistory rest c

/-- Write back one client's history into the store. -/
def setHistory (store : List (String × List ℚ)) (c : String) (h : List ℚ) :
    List (String × List ℚ) :=
  match store with
  | [] => [(c, h)]
  | (k, h') :: rest =>
      if k = c then (c, h) :: rest else (k, h') :: setHistory rest c h

/-- Configuration closed over by the source: the resolved
`CONSULTATION_DIR.parent`, `Path("/tmp")` and `Path.home()` (paths are
canonical component lists). -/
structure Config where
  consultParent : List String
  tmpDir : List String
  homeDir : List String
deriving DecidableEq

/-- One record file of the consultation directory: its path, the parsed
record, and its size in bytes (`_get_file_size`). -/
structure FileEntry where
  path : String
  record : Consultation
  size : ℕ
deriving DecidableEq

/-- The server's mutable world: the consultation directory (in glob
order) and the in-memory rate-limit store. -/
structure ServerState where
  files : List FileEntry
  rateStore : List (String × List ℚ)
deriving DecidableEq

/-- Filesystem-visible actions of one request, in order. -/
inductive Event where
  | scanDir : Event
  | readFile (p : String) : Event
  | mkdirBackup (d : List String) : Event
  | moveFile (src : String) (dest : List String) : Event
  | deleteFile (p : String) : Event
deriving DecidableEq

/-- Does the event mutate the filesystem (directory scans and file reads
do not)? -/
def mutates : Event → Bool
  | Event.scanDir => false
  | Event.readFile _ => false
  | Event.mkdirBackup _ => true
  | Event.moveFile _ _ => true
  | Event.deleteFile _ => true

/-- Error responses of the endpoint.  `rateLimited` is the
`HTTPException(429, ...)` raised before the `try` block.  `serverError`
is the catch-all `except Exception` re-raise: `HTTPException(500,
str(e))`, whose payload carries the stringified inner exception — for a
rejected backup directory that inner exception is the
`HTTPException(400, msg)` raised inside the `try`, carried here as the
pair (400, msg). -/
inductive CompactError where
  | rateLimited (detail : String) : CompactError
  | serverError (inner : ℕ × String) : CompactError
deriving DecidableEq

/-- The HTTP status code the caller sees. -/
def statusOf : CompactError → ℕ
  | CompactError.rateLimited _ => 429
  | CompactError.serverError _ => 500

/-- `CompactResult` (the `space_saved_mb` display field is omitted;
`backup_directory` is kept as a resolved component path). -/
structure CompactResult where
  duplicates_removed : ℕ
  files_deleted : List String
  files_backed_up : List String
  backup_directory : Option (List String)
  space_saved_bytes : ℕ
  remaining_consultations : ℕ
deriving DecidableEq

/-- The `allowed_bases` of `_validate_backup_directory`, each already
resolved. -/
def allowedBases (cfg : Config) : List (List String) :=
  [cfg.consultParent, cfg.tmpDir, cfg.homeDir]

/-- `_validate_backup_directory`: accept the (resolved) requested path
iff some allowed base is a component-prefix of it
(`requested_path.relative_to(allowed_base)` succeeds), else raise
`ValueError`.  (The Python message also lists the allowed bases; the
constant text suffices here.) -/
def validate_backup_directory (cfg : Config) (resolved : List String) :
    Except String (List String) :=
  if (allowedBases cfg).any (fun b => b.isPrefixOf resolved) then
    Except.ok resolved
  else
    Except.error "Backup directory must be within one of the allowed directories"

/-- The records loaded from disk (every file of the directory; a file
that failed `json.load` would be skipped by the source and is not
modelled — all `FileEntry` records are parsed records). -/
def loadedRecords (st : ServerState) : List Consultation :=
  st.files.map FileEntry.record

/-- `file_map.get(id)`: the file_map is a dict written in glob order, so
lookup returns the last file whose record carries this id (records
without an `id` key raise `KeyError` after the append and produce no
entry). -/
def lookupFileEntry (files : List FileEntry) (i : String) : Option FileEntry :=
  (files.filter (fun f => f.record.id = some i)).getLast?

/-- The file entries of one group's victims: `sorted_group[1:]`, each
resolved through the file map (a victim with no `id` or no file-map
entry is skipped, as `file_map.get` returns `None`; files listed by the
glob exist). -/
def victimEntriesOfGroup (files : List FileEntry) (g : List Consultation) :
    List FileEntry :=
  (victimsOfGroup g).filterMap (fun c => c.id.bind (lookupFileEntry files))

/-- All victim file entries, in duplicate-group iteration order: the
`files_to_remove` accumulation loop. -/
def victimEntries (st : ServerState) : List FileEntry :=
  (find_duplicate_consultations (loadedRecords st)).flatMap
    (fun hg => victimEntriesOfGroup st.files hg.2)

/-- `files_to_remove`. -/
def filesToRemove (st : ServerState) : List String :=
  (victimEntries st).map FileEntry.path

/-- `total_space_saved`. -/
def totalSpaceSaved (st : ServerState) : ℕ :=
  ((victimEntries st).map FileEntry.size).sum

/-- The default backup directory
`CONSULTATION_DIR.parent / "consultation_backup" / <run timestamp>`. -/
def defaultBackupDir (cfg : Config) (runStamp : String) : List String :=
  cfg.consultParent ++ ["consultation_backup", runStamp]

instance {ε α : Type} [DecidableEq ε] [DecidableEq α] :
    DecidableEq (Except ε α) := fun a b =>
  match a, b with
  | Except.ok x, Except.ok y =>
    if h : x = y then isTrue (by rw [h])
    else isFalse (by intro he; cases he; exact h rfl)
  | Except.error x, Except.error y =>
    if h : x = y then isTrue (by rw [h])
    else isFalse (by intro he; cases he; exact h rfl)
  | Except.ok _, Except.error _ => isFalse (by intro he; cases he)
  | Except.error _, Except.ok _ => isFalse (by intro he; cases he)

/-- What one request returns and leaves behind: the HTTP response, the
post-request server state, and the filesystem events in order. -/
structure Outcome where
  resp : Except CompactError CompactResult
  state : ServerState
  events : List Event
deriving DecidableEq

/-- The tail of `compact_duplicates` after the backup directory has been
settled: the per-victim move/delete loop, tallies and result assembly.
`moveOk p` says whether the move/delete of path `p` succeeds (the inner
`except (OSError, shutil.Error)` recovery); a failed victim is logged
and excluded from the success tallies but still counted in
`files_to_remove`. -/
def compactFinish (st : ServerState) (st₁ : ServerState)
    (moveOk : String → Bool) (dry_run backup : Bool)
    (backupPath : Option (List String)) (loadEvents : List Event) : Outcome :=
  let ftr := filesToRemove st
  let mkdirEvents : List Event :=
    match backupPath with
    | some p => [Event.mkdirBackup p]
    | none => []
  let processed : List FileEntry :=
    if dry_run then [] else (victimEntries st).filter (fun f => moveOk f.path)
  let doBackup : Bool := backup && backupPath.isSome
  let files_backed_up :=
    if doBackup then processed.map FileEntry.path else []
  let files_deleted :=
    if doBackup then [] else processed.map FileEntry.path
  let mutEvents : List Event :=
    if doBackup then
      processed.map (fun f => Event.moveFile f.path (backupPath.getD []))
    else
      processed.map (fun f => Event.deleteFile f.path)
  let newFiles :=
    if dry_run then st.files
    else st.files.filter (fun f => !((processed.map FileEntry.path).contains f.path))
  { resp := Except.ok
      { duplicates_removed := ftr.length
        files_deleted := files_deleted
        files_backed_up := files_backed_up
        backup_directory := backupPath
        space_saved_bytes := totalSpaceSaved st
        remaining_consultations := (loadedRecords st).length - ftr.length }
    state := { st₁ with files := newFiles }
    events := loadEvents ++ mkdirEvents ++ mutEvents }

/-- The 429 detail string of the rate-limit rejection. -/
def rateLimitDetail : String :=
  "Rate limit exceeded. Maximum 3 compaction requests per minute. Please wait and try again."

/-- `POST /compact/duplicates` (`compact_duplicates` in the source).
Sequence: rate-limit check for non-dry runs (before the `try` block, so
its 429 passes through); glob + per-file load; empty-store early return;
duplicate grouping and victim computation; backup-directory resolution
and validation (only when backup is on, victims exist and the run is not
dry — note a validation failure is an `HTTPException(400)` raised inside
the outer `try` and is therefore re-wrapped by the catch-all into a 500);
then the mutation loop.  `now` is `time.time()`, `runStamp` the
`datetime.now()` directory stamp, `moveOk` the per-victim I/O oracle. -/
def compact_duplicates (cfg : Config) (st : ServerState) (client : String)
    (now : ℚ) (runStamp : String) (moveOk : String → Bool)
    (dry_run backup : Bool) (backup_dir : Option (List String)) : Outcome :=
  let rateStep : Bool × List (String × List ℚ) :=
    if dry_run then (true, st.rateStore)
    else
      let r := check_rate_limit (getHistory st.rateStore client) now
        RATE_LIMIT_MAX_REQUESTS
      (r.1, setHistory st.rateStore client r.2)
  let st₁ : ServerState := { st with rateStore := rateStep.2 }
  if rateStep.1 = false then
    { resp := Except.error (CompactError.rateLimited rateLimitDetail)
      state := st₁
      events := [] }
  else
    let loadEvents := Event.scanDir :: st.files.map (fun f => Event.readFile f.path)
    if st.files.isEmpty then
      { resp := Except.ok
          { duplicates_removed := 0, files_deleted := [], files_backed_up := []
            backup_directory := none, space_saved_bytes := 0
            remaining_consultations := 0 }
        state := st₁
        events := loadEvents }
    else
      if backup && !(filesToRemove st).isEmpty && !dry_run then
        match backup_dir with
        | some d =>
          match validate_backup_directory cfg d with
          | Except.error msg =>
            { resp := Except.error (CompactError.serverError (400, msg))
              state := st₁
              events := loadEvents }
          | Except.ok p =>
            compactFinish st st₁ moveOk dry_run backup (some p) loadEvents
        | none =>
          compactFinish st st₁ moveOk dry_run backup
            (some (defaultBackupDir cfg runStamp)) loadEvents
      else
        compactFinish st st₁ moveOk dry_run backup none loadEvents

-- ## Result-shape facts shared by several claims

theorem compactFinish_spec (st st₁ : ServerState) (moveOk : String → Bool)
    (dry_run backup : Bool) (bp : Option (List String)) (ev : List Event) :
    ∃ r, (compactFinish st st₁ moveOk dry_run backup bp ev).resp = Except.ok r ∧
      r.duplicates_removed = (filesToRemove st).length ∧
      r.remaining_consultations =
        (loadedRecords st).length - (filesToRemove st).length ∧
      (r.files_deleted = [] ∨ r.files_backed_up = []) ∧
      r.files_deleted.length + r.files_backed_up.length ≤
        (filesToRemove st).length ∧
      (dry_run = true → r.files_deleted = [] ∧ r.files_backed_up = []) := by
  refine ⟨_, rfl, rfl, rfl, ?_, ?_, ?_⟩
  · dsimp only
    by_cases hb : (backup && bp.isSome) = true
    · exact Or.inl (by rw [if_pos hb])
    · exact Or.inr (by rw [if_neg hb])
  · dsimp only
    have hlen : ((if dry_run then ([] : List FileEntry)
        else (victimEntries st).filter (fun f => moveOk f.path)).map
          FileEntry.path).length ≤ (filesToRemove st).length := by
      rw [filesToRemove, List.length_map, List.length_map]
      split
      · simp
      · exact List.length_filter_le _ _
    by_cases hb : (backup && bp.isSome) = true
    · rw [if_pos hb, if_pos hb]
      simpa using hlen
    · rw [if_neg hb, if_neg hb]
      simpa using hlen
  · intro hd
    constructor <;> simp [hd]

theorem filesToRemove_of_nil (st : ServerState) (h : st.files = []) :
    filesToRemove st = [] := by
  simp [filesToRemove, victimEntries, find_duplicate_consultations,
    buildHashMap, loadedRecords, h]

theorem compact_ok_spec (cfg : Config) (st : ServerState) (client : String)
    (now : ℚ) (runStamp : String) (moveOk : String → Bool)
    (dry_run backup : Bool) (backup_dir : Option (List String))
    (r : CompactResult)
    (hok : (compact_duplicates cfg st client now runStamp moveOk dry_run backup
        backup_dir).resp = Except.ok r) :
    r.duplicates_removed = (filesToRemove st).length ∧
    r.remaining_consultations =
      (loadedRecords st).length - (filesToRemove st).length ∧
    (r.files_deleted = [] ∨ r.files_backed_up = []) ∧
    r.files_deleted.length + r.files_backed_up.length ≤
      (filesToRemove st).length ∧
    (dry_run = true → r.files_deleted = [] ∧ r.files_backed_up = []) := by
  have finish_case : ∀ (st₁ : ServerState) (d b : Bool)
      (bp : Option (List String)) (ev : List Event),
      (compactFinish st st₁ moveOk d b bp ev).resp = Except.ok r →
      r.duplicates_removed = (filesToRemove st).length ∧
      r.remaining_consultations =
        (loadedRecords st).length - (filesToRemove st).length ∧
      (r.files_deleted = [] ∨ r.files_backed_up = []) ∧
      r.files_deleted.length + r.files_backed_up.length ≤
        (filesToRemove st).length ∧
      (d = true → r.files_deleted = [] ∧ r.files_backed_up = []) := by
    intro st₁ d b bp ev hk
    obtain ⟨r', hr', h1, h2, h3, h4, h5⟩ := compactFinish_spec st st₁ moveOk d b bp ev
    rw [hr'] at hk
    injection hk with h
    subst h
    exact ⟨h1, h2, h3, h4, h5⟩
  have empty_case : st.files = [] →
      r = ⟨0, [], [], none, 0, 0⟩ →
      r.duplicates_removed = (filesToRemove st).length ∧
      r.remaining_consultations =
        (loadedRecords st).length - (filesToRemove st).length ∧
      (r.files_deleted = [] ∨ r.files_backed_up = []) ∧
      r.files_deleted.length + r.files_backed_up.length ≤
        (filesToRemove st).length ∧
      (dry_run = true → r.files_deleted = [] ∧ r.files_backed_up = []) := by
    intro hempty hr
    subst hr
    rw [filesToRemove_of_nil st hempty]
    refine ⟨rfl, by simp [loadedRecords, hempty], Or.inl rfl, by simp, fun _ => ⟨rfl, rfl⟩⟩
  unfold compact_duplicates at hok
  split at hok
  next hdry =>
    subst hdry
    dsimp only at hok
    split at hok
    next hfalse => exact absurd hfalse (by simp)
    next hfalse =>
      split at hok
      next hempty =>
        injection hok with h
        exact empty_case (List.isEmpty_iff.mp hempty) h.symm
      next hempty =>
        split at hok
        next hcond => exact absurd hcond (by simp)
        next hcond => exact finish_case _ _ _ _ _ hok
  next hdry =>
    have hd : dry_run = false := by revert hdry; cases dry_run <;> simp
    subst hd
    dsimp only at hok
    split at hok
    next hrej => exact absurd hok (by simp)
    next hrej =>
      split at hok
      next hempty =>
        injection hok with h
        exact empty_case (List.isEmpty_iff.mp hempty) h.symm
      next hempty =>
        split at hok
        next hcond =>
          cases hbd : backup_dir with
          | none =>
            rw [hbd] at hok
            dsimp only at hok
            exact finish_case _ _ _ _ _ hok
          | some d =>
            rw [hbd] at hok
            dsimp only at hok
            cases hv : validate_backup_directory cfg d with
            | error msg =>
              rw [hv] at hok
              exact absurd hok (by simp)
            | ok p =>
              rw [hv] at hok
              exact finish_case _ _ _ _ _ hok
        next hcond =>
          exact finish_case _ _ _ _ _ hok

-- Concrete server fixtures for the witnesses: a directory holding the
-- duplicate pair, an empty rate store, and plain allowed bases.
def fixCfg : Config := ⟨["app"], ["tmp"], ["home", "u"]⟩

def fixF1 : FileEntry := ⟨"consultation_data/id-a.json", fixA, 100⟩

def fixF2 : FileEntry := ⟨"consultation_data/id-b.json", fixB, 120⟩

def fixStore : ServerState := ⟨[fixF1, fixF2], []⟩

/-- The result of a non-dry run on `fixStore` whose victim move fails. -/
def fixResultFail : CompactResult :=
  ⟨1, [], [], some ["app", "consultation_backup", "stamp"], 100, 1⟩

/-- The result of a successful non-dry backup run on `fixStore`. -/
def fixResultOk : CompactResult :=
  ⟨1, [], ["consultation_data/id-a.json"],
   some ["app", "consultation_backup", "stamp"], 100, 1⟩

/-- C2 as stated is false: on a store of two duplicate records whose
victim move fails, the run reports `remaining_consultations = 1`
although loaded − successfully-processed = 2 − 0 = 2 (the failed victim
is still subtracted). -/
theorem remaining_count_counterexample :
    (compact_duplicates fixCfg fixStore "client" 0 "stamp" (fun _ => false)
        false true none).resp = Except.ok fixResultFail ∧
    fixResultFail.files_deleted.length + fixResultFail.files_backed_up.length = 0 ∧
    (loadedRecords fixStore).length = 2 ∧
    fixResultFail.remaining_consultations ≠ 2 - 0 := by
  decide

/-- C2 (amended): for every non-dry-run invocation that returns a
result, `remaining_consultations` equals the number of records loaded
minus the number of victims identified (`duplicates_removed` =
`len(files_to_remove)`), regardless of how many victims were
successfully processed. -/
theorem remaining_eq_loaded_sub_identified (cfg : Config) (st : ServerState)
    (client : String) (now : ℚ) (runStamp : String) (moveOk : String → Bool)
    (backup : Bool) (backup_dir : Option (List String)) (r : CompactResult)
    (hok : (compact_duplicates cfg st client now runStamp moveOk false backup
        backup_dir).resp = Except.ok r) :
    r.remaining_consultations = (loadedRecords st).length - r.duplicates_removed := by
  obtain ⟨h1, h2, -, -, -⟩ :=
    compact_ok_spec cfg st client now runStamp moveOk false backup backup_dir r hok
  rw [h2, h1]

/-- C2 witness: the amended theorem applied to the failing-move run. -/
theorem remaining_eq_loaded_sub_identified_witness :
    fixResultFail.remaining_consultations =
      (loadedRecords fixStore).length - fixResultFail.duplicates_removed :=
  remaining_eq_loaded_sub_identified fixCfg fixStore "client" 0 "stamp"
    (fun _ => false) true none fixResultFail (by decide)

/-- C10: in every result a completed invocation returns, at most one of
`files_deleted` and `files_backed_up` is non-empty, and their combined
length never exceeds `duplicates_removed` (the gap being dry-run mode or
per-victim failures). -/
theorem compact_result_tallies (cfg : Config) (st : ServerState)
    (client : String) (now : ℚ) (runStamp : String) (moveOk : String → Bool)
    (dry_run backup : Bool) (backup_dir : Option (List String))
    (r : CompactResult)
    (hok : (compact_duplicates cfg st client now runStamp moveOk dry_run backup
        backup_dir).resp = Except.ok r) :
    (r.files_deleted = [] ∨ r.files_backed_up = []) ∧
    r.files_deleted.length + r.files_backed_up.length ≤ r.duplicates_removed := by
  obtain ⟨h1, -, h3, h4, -⟩ :=
    compact_ok_spec cfg st client now runStamp moveOk dry_run backup backup_dir r hok
  exact ⟨h3, h1 ▸ h4⟩

/-- C10 witness: the successful backup run on the fixture store. -/
theorem compact_result_tallies_witness :
    (fixResultOk.files_deleted = [] ∨ fixResultOk.files_backed_up = []) ∧
    fixResultOk.files_deleted.length + fixResultOk.files_backed_up.length ≤
      fixResultOk.duplicates_removed :=
  compact_result_tallies fixCfg fixStore "client" 0 "stamp" (fun _ => true)
    false true none fixResultOk (by decide)

theorem compactFinish_dry_none (st st₁ : ServerState) (moveOk : String → Bool)
    (backup : Bool) (ev : List Event) :
    (compactFinish st st₁ moveOk true backup none ev).state =
      { st₁ with files := st.files } ∧
    (compactFinish st st₁ moveOk true backup none ev).events = ev ∧
    ∃ r, (compactFinish st st₁ moveOk true backup none ev).resp = Except.ok r ∧
      r.files_deleted = [] ∧ r.files_backed_up = [] := by
  refine ⟨by simp [compactFinish], by simp [compactFinish], _, rfl, ?_, ?_⟩
  · dsimp only [compactFinish]
    simp
  · dsimp only [compactFinish]
    simp

/-- Dry runs leave the server state (files and rate store) untouched,
perform no mutating filesystem event, and return a result with empty
deletion/backup tallies. -/
theorem compact_dry_run_spec (cfg : Config) (st : ServerState)
    (client : String) (now : ℚ) (runStamp : String) (moveOk : String → Bool)
    (backup : Bool) (backup_dir : Option (List String)) :
    (compact_duplicates cfg st client now runStamp moveOk true backup
        backup_dir).state = st ∧
    (∀ e ∈ (compact_duplicates cfg st client now runStamp moveOk true backup
        backup_dir).events, mutates e = false) ∧
    ∃ r, (compact_duplicates cfg st client now runStamp moveOk true backup
        backup_dir).resp = Except.ok r ∧
      r.files_deleted = [] ∧ r.files_backed_up = [] := by
  have hload : ∀ e ∈ Event.scanDir ::
      st.files.map (fun f => Event.readFile f.path), mutates e = false := by
    intro e he
    rcases List.mem_cons.mp he with he | he
    · rw [he]; rfl
    · obtain ⟨f, -, hf⟩ := List.mem_map.mp he
      rw [← hf]; rfl
  unfold compact_duplicates
  dsimp only
  split
  next hdry =>
    split
    next hfalse => exact absurd hfalse (by simp)
    next hfalse =>
      split
      next hempty => exact ⟨rfl, hload, _, rfl, rfl, rfl⟩
      next hempty =>
        split
        next hcond => exact absurd hcond (by simp)
        next hcond =>
          obtain ⟨h1, h2, r, h3, h4, h5⟩ :=
            compactFinish_dry_none st { st with rateStore := st.rateStore }
              moveOk backup
              (Event.scanDir :: st.files.map (fun f => Event.readFile f.path))
          refine ⟨?_, ?_, r, h3, h4, h5⟩
          · rw [h1]
          · rw [h2]; exact hload
  next hdry => exact absurd rfl hdry

/-- C7: a dry-run invocation performs no filesystem mutation (its result
lists `files_deleted` and `files_backed_up` are empty and no mkdir,
move or delete event occurs), leaves the whole server state — in
particular the client's rate-limit budget — unchanged, and reports the
same `duplicates_removed` count as any non-dry-run invocation on the
identical store that returns a result. -/
theorem dry_run_purity (cfg : Config) (st : ServerState) (client : String)
    (now : ℚ) (runStamp : String) (moveOk : String → Bool) (backup : Bool)
    (backup_dir : Option (List String)) :
    (compact_duplicates cfg st client now runStamp moveOk true backup
        backup_dir).state = st ∧
    (∀ e ∈ (compact_duplicates cfg st client now runStamp moveOk true backup
        backup_dir).events, mutates e = false) ∧
    ∃ r, (compact_duplicates cfg st client now runStamp moveOk true backup
        backup_dir).resp = Except.ok r ∧
      r.files_deleted = [] ∧ r.files_backed_up = [] ∧
      ∀ (client' : String) (now' : ℚ) (runStamp' : String)
        (moveOk' : String → Bool) (r' : CompactResult),
        (compact_duplicates cfg st client' now' runStamp' moveOk' false backup
            backup_dir).resp = Except.ok r' →
        r'.duplicates_removed = r.duplicates_removed := by
  obtain ⟨h1, h2, r, h3, h4, h5⟩ :=
    compact_dry_run_spec cfg st client now runStamp moveOk backup backup_dir
  refine ⟨h1, h2, r, h3, h4, h5, ?_⟩
  intro client' now' runStamp' moveOk' r' hok'
  have ha := (compact_ok_spec cfg st client now runStamp moveOk true backup
    backup_dir r h3).1
  have hb := (compact_ok_spec cfg st client' now' runStamp' moveOk' false
    backup backup_dir r' hok').1
  rw [ha, hb]

-- ## Rate limiter (C5)

theorem pruneWindow_idem {now t : ℚ} (hist : List ℚ) (hle : now ≤ t) :
    pruneWindow t (pruneWindow now hist) = pruneWindow t hist := by
  rw [pruneWindow, pruneWindow, pruneWindow, List.filter_filter]
  apply List.filter_congr
  intro ts hts
  by_cases h : t - ts < RATE_LIMIT_WINDOW_SECONDS
  · have h2 : now - ts < RATE_LIMIT_WINDOW_SECONDS := by
      have : now - ts ≤ t - ts := by linarith
      linarith
    simp [h, h2]
  · simp [h]

theorem check_rate_limit_spec (hist : List ℚ) (now : ℚ) :
    ((check_rate_limit hist now RATE_LIMIT_MAX_REQUESTS).1 = true ↔
      (pruneWindow now hist).length < RATE_LIMIT_MAX_REQUESTS) ∧
    ((check_rate_limit hist now RATE_LIMIT_MAX_REQUESTS).1 = true →
      (check_rate_limit hist now RATE_LIMIT_MAX_REQUESTS).2 =
        pruneWindow now hist ++ [now]) ∧
    ((check_rate_limit hist now RATE_LIMIT_MAX_REQUESTS).1 = false →
      (check_rate_limit hist now RATE_LIMIT_MAX_REQUESTS).2 =
        pruneWindow now hist ∧
      ∀ t, now ≤ t →
        pruneWindow t (check_rate_limit hist now RATE_LIMIT_MAX_REQUESTS).2 =
          pruneWindow t hist) := by
  unfold check_rate_limit
  by_cases h : RATE_LIMIT_MAX_REQUESTS ≤ (pruneWindow now hist).length
  · rw [if_pos h]
    refine ⟨by simpa using h, by simp, fun _ => ⟨rfl, fun t ht => pruneWindow_idem hist ht⟩⟩
  · rw [if_neg h]
    refine ⟨by simpa using Nat.lt_of_not_le h, fun _ => rfl, by simp⟩

theorem compact_rate_reject (cfg : Config) (st : ServerState) (client : String)
    (now : ℚ) (runStamp : String) (moveOk : String → Bool) (backup : Bool)
    (backup_dir : Option (List String)) :
    ((check_rate_limit (getHistory st.rateStore client) now
        RATE_LIMIT_MAX_REQUESTS).1 = false →
      compact_duplicates cfg st client now runStamp moveOk false backup
          backup_dir =
        ⟨Except.error (CompactError.rateLimited rateLimitDetail),
         ⟨st.files, setHistory st.rateStore client
            (pruneWindow now (getHistory st.rateStore client))⟩, []⟩) ∧
    ((check_rate_limit (getHistory st.rateStore client) now
        RATE_LIMIT_MAX_REQUESTS).1 = true →
      ∀ d, (compact_duplicates cfg st client now runStamp moveOk false backup
          backup_dir).resp ≠ Except.error (CompactError.rateLimited d)) := by
  constructor
  · intro hrej
    have hst : (check_rate_limit (getHistory st.rateStore client) now
        RATE_LIMIT_MAX_REQUESTS).2 =
        pruneWindow now (getHistory st.rateStore client) :=
      ((check_rate_limit_spec (getHistory st.rateStore client) now).2.2 hrej).1
    unfold compact_duplicates
    dsimp only
    split
    next hsel => exact absurd hsel (by simp)
    next hsel => rw [hst]
  · intro hadm d hcon
    unfold compact_duplicates at hcon
    dsimp only at hcon
    split at hcon
    next hsel => exact absurd hsel (by simp)
    next hsel =>
      split at hcon
      next hc => exact absurd hc (by simp [hadm])
      next hc =>
        split at hcon
        · simp at hcon
        · split at hcon
          · split at hcon
            · split at hcon
              · simp at hcon
              · simp [compactFinish] at hcon
            · simp [compactFinish] at hcon
          · simp [compactFinish] at hcon

theorem rate_limit_scenario (t₁ t₂ t₃ t₄ t₅ : ℚ) (h12 : t₁ ≤ t₂)
    (h23 : t₂ ≤ t₃) (h34 : t₃ ≤ t₄)
    (hwin : t₄ - t₁ < RATE_LIMIT_WINDOW_SECONDS)
    (hexp : RATE_LIMIT_WINDOW_SECONDS ≤ t₅ - t₃) :
    check_rate_limit [] t₁ RATE_LIMIT_MAX_REQUESTS = (true, [t₁]) ∧
    check_rate_limit [t₁] t₂ RATE_LIMIT_MAX_REQUESTS = (true, [t₁, t₂]) ∧
    check_rate_limit [t₁, t₂] t₃ RATE_LIMIT_MAX_REQUESTS =
      (true, [t₁, t₂, t₃]) ∧
    check_rate_limit [t₁, t₂, t₃] t₄ RATE_LIMIT_MAX_REQUESTS =
      (false, [t₁, t₂, t₃]) ∧
    (check_rate_limit [t₁, t₂, t₃] t₅ RATE_LIMIT_MAX_REQUESTS).1 = true := by
  rw [RATE_LIMIT_WINDOW_SECONDS] at hwin hexp
  have w21 : t₂ - t₁ < (60 : ℚ) := by linarith
  have w31 : t₃ - t₁ < (60 : ℚ) := by linarith
  have w32 : t₃ - t₂ < (60 : ℚ) := by linarith
  have w41 : t₄ - t₁ < (60 : ℚ) := by linarith
  have w42 : t₄ - t₂ < (60 : ℚ) := by linarith
  have w43 : t₄ - t₃ < (60 : ℚ) := by linarith
  have e51 : ¬(t₅ - t₁ < (60 : ℚ)) := by push_neg; linarith
  have e52 : ¬(t₅ - t₂ < (60 : ℚ)) := by push_neg; linarith
  have e53 : ¬(t₅ - t₃ < (60 : ℚ)) := by push_neg; linarith
  refine ⟨?_, ?_, ?_, ?_, ?_⟩ <;>
    simp [check_rate_limit, pruneWindow, RATE_LIMIT_WINDOW_SECONDS,
      RATE_LIMIT_MAX_REQUESTS, List.filter, w21, w31, w32, w41, w42, w43,
      e51, e52, e53]

/-- C5: a non-dry-run request from a client is admitted iff, after
pruning timestamps older than the trailing 60-second window, fewer than
3 timestamps remain; on admission the current timestamp is appended; on
rejection a distinct rate-limited error (HTTP 429) is returned, no event
occurs, the files are untouched and the stored history is only the
pruned one — observationally unchanged for every later call.  With
`MAX = 3` and `WINDOW = 60`, exactly 3 requests inside one window
succeed, the 4th is rejected, and a request once the window has elapsed
succeeds. -/
theorem rate_limiter_correct :
    (∀ (hist : List ℚ) (now : ℚ),
      ((check_rate_limit hist now RATE_LIMIT_MAX_REQUESTS).1 = true ↔
        (pruneWindow now hist).length < RATE_LIMIT_MAX_REQUESTS) ∧
      ((check_rate_limit hist now RATE_LIMIT_MAX_REQUESTS).1 = true →
        (check_rate_limit hist now RATE_LIMIT_MAX_REQUESTS).2 =
          pruneWindow now hist ++ [now]) ∧
      ((check_rate_limit hist now RATE_LIMIT_MAX_REQUESTS).1 = false →
        (check_rate_limit hist now RATE_LIMIT_MAX_REQUESTS).2 =
          pruneWindow now hist ∧
        ∀ t, now ≤ t →
          pruneWindow t (check_rate_limit hist now RATE_LIMIT_MAX_REQUESTS).2 =
            pruneWindow t hist)) ∧
    statusOf (CompactError.rateLimited rateLimitDetail) = 429 ∧
    (∀ (cfg : Config) (st : ServerState) (client : String) (now : ℚ)
        (runStamp : String) (moveOk : String → Bool) (backup : Bool)
        (backup_dir : Option (List String)),
      ((check_rate_limit (getHistory st.rateStore client) now
          RATE_LIMIT_MAX_REQUESTS).1 = false →
        compact_duplicates cfg st client now runStamp moveOk false backup
            backup_dir =
          ⟨Except.error (CompactError.rateLimited rateLimitDetail),
           ⟨st.files, setHistory st.rateStore client
              (pruneWindow now (getHistory st.rateStore client))⟩, []⟩) ∧
      ((check_rate_limit (getHistory st.rateStore client) now
          RATE_LIMIT_MAX_REQUESTS).1 = true →
        ∀ d, (compact_duplicates cfg st client now runStamp moveOk false backup
            backup_dir).resp ≠ Except.error (CompactError.rateLimited d))) ∧
    (∀ t₁ t₂ t₃ t₄ t₅ : ℚ, t₁ ≤ t₂ → t₂ ≤ t₃ → t₃ ≤ t₄ →
      t₄ - t₁ < RATE_LIMIT_WINDOW_SECONDS →
      RATE_LIMIT_WINDOW_SECONDS ≤ t₅ - t₃ →
      check_rate_limit [] t₁ RATE_LIMIT_MAX_REQUESTS = (true, [t₁]) ∧
      check_rate_limit [t₁] t₂ RATE_LIMIT_MAX_REQUESTS = (true, [t₁, t₂]) ∧
      check_rate_limit [t₁, t₂] t₃ RATE_LIMIT_MAX_REQUESTS =
        (true, [t₁, t₂, t₃]) ∧
      check_rate_limit [t₁, t₂, t₃] t₄ RATE_LIMIT_MAX_REQUESTS =
        (false, [t₁, t₂, t₃]) ∧
      (check_rate_limit [t₁, t₂, t₃] t₅ RATE_LIMIT_MAX_REQUESTS).1 = true) :=
  ⟨check_rate_limit_spec, rfl, compact_rate_reject, rate_limit_scenario⟩

/-- C6: path validation itself accepts exactly the paths under an
allow-listed base (`/etc` rejected, a subdirectory of an allowed base
accepted), and a rejected custom path aborts the run before any
filesystem mutation with no default directory substituted — but the
HTTP error the caller sees is a 500, not the 400 caller-input error the
code intends: the `HTTPException(400)` raised inside the `try` block is
caught by the catch-all `except Exception` and re-raised as
`HTTPException(500, str(e))`. -/
theorem backup_dir_validation_bug :
    validate_backup_directory fixCfg ["etc"] =
      Except.error "Backup directory must be within one of the allowed directories" ∧
    validate_backup_directory fixCfg ["tmp", "backups"] =
      Except.ok ["tmp", "backups"] ∧
    (compact_duplicates fixCfg fixStore "client" 0 "stamp" (fun _ => true)
        false true (some ["etc"])).resp =
      Except.error (CompactError.serverError
        (400, "Backup directory must be within one of the allowed directories")) ∧
    statusOf (CompactError.serverError
      (400, "Backup directory must be within one of the allowed directories")) = 500 ∧
    (∀ e ∈ (compact_duplicates fixCfg fixStore "client" 0 "stamp"
        (fun _ => true) false true (some ["etc"])).events, mutates e = false) ∧
    (compact_duplicates fixCfg fixStore "client" 0 "stamp" (fun _ => true)
        false true (some ["etc"])).state.files = fixStore.files := by
  decide

/-- C9 as stated is false: with duplicates present, a non-dry-run
request carrying the disallowed backup directory `/etc` is indeed
rejected, but only after the record directory has been scanned and its
files read — the load happens before the backup-directory check. -/
theorem reject_after_scan_counterexample :
    (compact_duplicates fixCfg fixStore "client" 0 "stamp" (fun _ => true)
        false true (some ["etc"])).resp =
      Except.error (CompactError.serverError
        (400, "Backup directory must be within one of the allowed directories")) ∧
    Event.scanDir ∈ (compact_duplicates fixCfg fixStore "client" 0 "stamp"
      (fun _ => true) false true (some ["etc"])).events ∧
    Event.readFile "consultation_data/id-a.json" ∈
      (compact_duplicates fixCfg fixStore "client" 0 "stamp"
        (fun _ => true) false true (some ["etc"])).events := by
  decide

/-- C9 (amended): when a rate-admitted non-dry-run request with backup
enabled carries a backup directory failing validation (e.g. `/etc`) and
duplicate victims exist, the request is rejected — but only after the
record directory has been scanned and every record file read; no
filesystem mutation happens (the events are exactly the scan and the
reads) and the record files are left untouched. -/
theorem invalid_backup_dir_rejected_before_mutation (cfg : Config)
    (st : ServerState) (client : String) (now : ℚ) (runStamp : String)
    (moveOk : String → Bool) (d : List String) (msg : String)
    (hadm : (check_rate_limit (getHistory st.rateStore client) now
      RATE_LIMIT_MAX_REQUESTS).1 = true)
    (hvict : filesToRemove st ≠ [])
    (hval : validate_backup_directory cfg d = Except.error msg) :
    compact_duplicates cfg st client now runStamp moveOk false true (some d) =
      ⟨Except.error (CompactError.serverError (400, msg)),
       ⟨st.files, setHistory st.rateStore client
          (check_rate_limit (getHistory st.rateStore client) now
            RATE_LIMIT_MAX_REQUESTS).2⟩,
       Event.scanDir :: st.files.map (fun f => Event.readFile f.path)⟩ := by
  have hne : ¬(st.files.isEmpty = true) := by
    intro he
    exact hvict (by
      rw [filesToRemove_of_nil st (List.isEmpty_iff.mp he)])
  unfold compact_duplicates
  dsimp only
  split
  next hsel => exact absurd hsel (by simp)
  next hsel =>
    split
    next hc => exact absurd hc (by simp [hadm])
    next hc =>
      split
      next hcond => rw [hval]
      next hcond => exact absurd (by simp [hvict]) hcond

/-- C9 witness: the amended theorem applied to the fixture store with
`backupDir = /etc`. -/
theorem invalid_backup_dir_rejected_witness :
    compact_duplicates fixCfg fixStore "client" 0 "stamp" (fun _ => true)
        false true (some ["etc"]) =
      ⟨Except.error (CompactError.serverError
          (400, "Backup directory must be within one of the allowed directories")),
       ⟨fixStore.files, setHistory fixStore.rateStore "client"
          (check_rate_limit (getHistory fixStore.rateStore "client") 0
            RATE_LIMIT_MAX_REQUESTS).2⟩,
       Event.scanDir :: fixStore.files.map (fun f => Event.readFile f.path)⟩ :=
  invalid_backup_dir_rejected_before_mutation fixCfg fixStore "client" 0
    "stamp" (fun _ => true) ["etc"]
    "Backup directory must be within one of the allowed directories"
    (by decide) (by decide) (by decide)

/-- All victims over all duplicate groups, at record level. -/
def victimRecs (recs : List Consultation) : List Consultation :=
  (find_duplicate_consultations recs).flatMap (fun hg => victimsOfGroup hg.2)

theorem victimsOfGroup_subset {g : List Consultation} {c : Consultation}
    (hc : c ∈ victimsOfGroup g) : c ∈ g :=
  (List.perm_insertionSort descBefore g).mem_iff.mp (List.mem_of_mem_tail hc)

theorem bucket_filter_removed_le_one (recs : List Consultation) (h : Digest)
    (hne : h ≠ Digest.empty) :
    (((recs.filter (fun c => compute_content_hash c = h)).filter
      (fun c => c ∉ victimRecs recs))).length ≤ 1 := by
  set G := recs.filter (fun c => compute_content_hash c = h) with hG
  by_cases hlen : 2 ≤ G.length
  · have hmem : (h, G) ∈ find_duplicate_consultations recs :=
      mem_find_iff.mpr ⟨hne, hG, hlen⟩
    have hperm : (sortedGroup G).Perm G := List.perm_insertionSort descBefore G
    have hlen' : 0 < (sortedGroup G).length := by
      rw [hperm.length_eq]
      omega
    obtain ⟨s, t, hst⟩ :=
      List.exists_cons_of_ne_nil (List.ne_nil_of_length_pos hlen')
    have htail : ∀ x ∈ t, x ∈ victimRecs recs := by
      intro x hx
      refine List.mem_flatMap.mpr ⟨(h, G), hmem, ?_⟩
      show x ∈ (sortedGroup G).tail
      rw [hst]
      exact hx
    have hGperm : G.Perm (s :: t) := (hst ▸ hperm).symm
    have hmem_eq : ∀ x ∈ G.filter (fun c => c ∉ victimRecs recs), x = s := by
      intro x hx
      obtain ⟨hxG, hxv⟩ := List.mem_filter.mp hx
      have hnv : x ∉ victimRecs recs := by simpa using hxv
      rcases List.mem_cons.mp (hGperm.mem_iff.mp hxG) with he | ht
      · exact he
      · exact absurd (htail x ht) hnv
    by_cases hs : s ∈ victimRecs recs
    · have hnil : G.filter (fun c => c ∉ victimRecs recs) = [] := by
        rw [List.eq_nil_iff_forall_not_mem]
        intro x hx
        have hxs := hmem_eq x hx
        subst hxs
        have := (List.mem_filter.mp hx).2
        simp at this
        exact this hs
      rw [hnil]
      simp
    · have hts : s ∉ t := fun ht => hs (htail s ht)
      have hcount : G.count s = 1 := by
        rw [hGperm.count_eq s, List.count_cons_self,
          List.count_eq_zero.mpr hts]
      have hps : (fun c => decide (c ∉ victimRecs recs)) s = true := by
        simpa using hs
      have hcf : (G.filter (fun c => c ∉ victimRecs recs)).count s =
          G.count s := List.count_filter hps
      have hlenc : (G.filter (fun c => c ∉ victimRecs recs)).count s =
          (G.filter (fun c => c ∉ victimRecs recs)).length :=
        List.count_eq_length.mpr (fun b hb => (hmem_eq b hb).symm)
      omega
  · have := List.length_filter_le (fun c => decide (c ∉ victimRecs recs)) G
    omega

/-- After deleting every victim, no duplicate group remains. -/
theorem find_after_removal (recs : List Consultation) :
    find_duplicate_consultations
      (recs.filter (fun c => c ∉ victimRecs recs)) = [] := by
  rw [find_duplicate_consultations, List.filter_eq_nil_iff]
  rintro ⟨h, g⟩ hmem
  have hinv := buildHashMap_invariant (recs.filter (fun c => c ∉ victimRecs recs))
  have hne : h ≠ Digest.empty := hinv.1 _ hmem
  have hgb := mem_assoc_eq_bucketOf hinv.2 hmem
  have hgf : g = (recs.filter (fun c => c ∉ victimRecs recs)).filter
      (fun c => compute_content_hash c = h) := by
    rw [← hgb, bucketOf_buildHashMap _ _ hne]
  have hle : g.length ≤ 1 := by
    rw [hgf, List.filter_comm]
    exact bucket_filter_removed_le_one recs h hne
  simp only [decide_eq_true_eq]
  omega

theorem lookupFileEntry_mem {files : List FileEntry} {i : String}
    {f : FileEntry} (h : lookupFileEntry files i = some f) :
    f ∈ files ∧ f.record.id = some i := by
  rw [lookupFileEntry] at h
  have hne : files.filter (fun e => e.record.id = some i) ≠ [] := by
    intro he
    rw [he] at h
    cases h
  rw [List.getLast?_eq_getLast _ hne] at h
  injection h with h
  have hmem := h ▸ List.getLast_mem hne
  obtain ⟨h1, h2⟩ := List.mem_filter.mp hmem
  exact ⟨h1, by simpa using h2⟩

theorem lookupFileEntry_self {files : List FileEntry} {i : String}
    {f : FileEntry}
    (hnodid : (files.map (fun e => e.record.id)).Nodup)
    (hf : f ∈ files) (hi : f.record.id = some i) :
    lookupFileEntry files i = some f := by
  have hfin : f ∈ files.filter (fun e => e.record.id = some i) :=
    List.mem_filter.mpr ⟨hf, by simpa using hi⟩
  have hne : files.filter (fun e => e.record.id = some i) ≠ [] :=
    List.ne_nil_of_mem hfin
  rw [lookupFileEntry, List.getLast?_eq_getLast _ hne]
  have hlast := List.getLast_mem hne
  obtain ⟨h1, h2⟩ := List.mem_filter.mp hlast
  have : (files.filter (fun e => e.record.id = some i)).getLast hne = f :=
    List.inj_on_of_nodup_map hnodid h1 hf
      (by rw [hi]; simpa using h2)
  rw [this]

theorem victim_path_iff (st : ServerState)
    (hid : ∀ f ∈ st.files, f.record.id ≠ none)
    (hnodid : (st.files.map (fun e => e.record.id)).Nodup)
    (hnodpath : (st.files.map FileEntry.path).Nodup) :
    ∀ f ∈ st.files,
      (f.path ∈ filesToRemove st ↔ f.record ∈ victimRecs (loadedRecords st)) := by
  intro f hf
  constructor
  · intro hp
    obtain ⟨e, he, hep⟩ := List.mem_map.mp hp
    obtain ⟨⟨h, g⟩, hg, hee⟩ := List.mem_flatMap.mp he
    obtain ⟨c, hc, hce⟩ := List.mem_filterMap.mp hee
    cases hci : c.id with
    | none =>
      rw [hci] at hce
      cases hce
    | some i =>
      rw [hci] at hce
      rw [Option.some_bind] at hce
      obtain ⟨hef, hei⟩ := lookupFileEntry_mem hce
      have hef2 : e = f := List.inj_on_of_nodup_map hnodpath hef hf hep
      have hcg : c ∈ g := victimsOfGroup_subset hc
      have hcrecs : c ∈ loadedRecords st := by
        obtain ⟨-, hgf, -⟩ := mem_find_iff.mp hg
        rw [hgf] at hcg
        exact (List.mem_filter.mp hcg).1
      obtain ⟨f', hf', hf'c⟩ := List.mem_map.mp hcrecs
      have hf'e : f' = e := List.inj_on_of_nodup_map hnodid hf' hef
        (by rw [hf'c, hci, hei])
      have hfc : f.record = c := by rw [← hef2, ← hf'e, hf'c]
      exact List.mem_flatMap.mpr ⟨(h, g), hg, hfc ▸ hc⟩
  · intro hv
    obtain ⟨⟨h, g⟩, hg, hcv⟩ := List.mem_flatMap.mp hv
    obtain ⟨i, hi⟩ : ∃ i, f.record.id = some i := by
      cases hfi : f.record.id with
      | none => exact absurd hfi (hid f hf)
      | some i => exact ⟨i, rfl⟩
    have hlk : lookupFileEntry st.files i = some f :=
      lookupFileEntry_self hnodid hf hi
    refine List.mem_map.mpr ⟨f, ?_, rfl⟩
    refine List.mem_flatMap.mpr ⟨(h, g), hg, ?_⟩
    refine List.mem_filterMap.mpr ⟨f.record, hcv, ?_⟩
    rw [hi, Option.some_bind]
    exact hlk

theorem compact_ok_state (cfg : Config) (st : ServerState) (client : String)
    (now : ℚ) (runStamp : String) (moveOk : String → Bool) (backup : Bool)
    (backup_dir : Option (List String)) (r : CompactResult)
    (hok : (compact_duplicates cfg st client now runStamp moveOk false backup
        backup_dir).resp = Except.ok r) :
    (compact_duplicates cfg st client now runStamp moveOk false backup
        backup_dir).state.files =
      st.files.filter (fun f =>
        !(((victimEntries st).filter (fun e => moveOk e.path)).map
          FileEntry.path).contains f.path) := by
  by_cases hadm : (check_rate_limit (getHistory st.rateStore client) now
      RATE_LIMIT_MAX_REQUESTS).1 = false
  · rw [(compact_rate_reject cfg st client now runStamp moveOk backup
      backup_dir).1 hadm] at hok
    cases hok
  · have hadm' : (check_rate_limit (getHistory st.rateStore client) now
        RATE_LIMIT_MAX_REQUESTS).1 = true := by
      revert hadm
      cases (check_rate_limit (getHistory st.rateStore client) now
        RATE_LIMIT_MAX_REQUESTS).1 <;> simp
    unfold compact_duplicates
    dsimp only
    split
    next hsel => exact absurd hsel (by simp)
    next hsel =>
      split
      next hempty =>
        rw [List.isEmpty_iff.mp hempty]
        rfl
      next hempty =>
        split
        next hcond =>
          have hb : backup = true := by
            revert hcond
            cases backup <;> simp
          have hvict : filesToRemove st ≠ [] := by
            intro he
            rw [he] at hcond
            simp at hcond
          subst hb
          cases hbd : backup_dir with
          | none => rfl
          | some d =>
            dsimp only
            cases hv : validate_backup_directory cfg d with
            | error msg =>
              rw [hbd] at hok
              rw [invalid_backup_dir_rejected_before_mutation cfg st client
                now runStamp moveOk d msg hadm' hvict hv] at hok
              cases hok
            | ok p =>
              rfl
        next hcond =>
          rfl

theorem newFiles_records (st : ServerState)
    (hid : ∀ f ∈ st.files, f.record.id ≠ none)
    (hnodid : (st.files.map (fun e => e.record.id)).Nodup)
    (hnodpath : (st.files.map FileEntry.path).Nodup) :
    (st.files.filter (fun f => !((filesToRemove st).contains f.path))).map
        FileEntry.record =
      (loadedRecords st).filter (fun c => c ∉ victimRecs (loadedRecords st)) := by
  show _ = (st.files.map FileEntry.record).filter
    (fun c => c ∉ victimRecs (loadedRecords st))
  rw [List.filter_map]
  apply congrArg (List.map FileEntry.record)
  apply List.filter_congr
  intro f hf
  have hiff := victim_path_iff st hid hnodid hnodpath f hf
  by_cases hm : f.path ∈ filesToRemove st
  · have hvm : f.record ∈ victimRecs (loadedRecords st) := hiff.mp hm
    simp [Function.comp, List.elem_iff, hm, hvm]
  · have hvm : f.record ∉ victimRecs (loadedRecords st) := fun hv => hm (hiff.mpr hv)
    simp [Function.comp, List.elem_iff, hm, hvm]

/-- C8: compaction is idempotent.  For every record store whose records
carry present, pairwise-distinct ids and whose files have distinct
paths: after a successful non-dry-run compaction (every victim's
move/delete succeeded), a second non-dry-run compaction on the resulting
store that returns a result reports `duplicates_removed = 0`. -/
theorem compaction_idempotent (cfg : Config) (st : ServerState)
    (client client' : String) (now now' : ℚ) (runStamp runStamp' : String)
    (moveOk' : String → Bool) (backup backup' : Bool)
    (backup_dir backup_dir' : Option (List String)) (r₁ r₂ : CompactResult)
    (hid : ∀ f ∈ st.files, f.record.id ≠ none)
    (hnodid : (st.files.map (fun e => e.record.id)).Nodup)
    (hnodpath : (st.files.map FileEntry.path).Nodup)
    (hok₁ : (compact_duplicates cfg st client now runStamp (fun _ => true)
        false backup backup_dir).resp = Except.ok r₁)
    (hok₂ : (compact_duplicates cfg
        (compact_duplicates cfg st client now runStamp (fun _ => true)
          false backup backup_dir).state
        client' now' runStamp' moveOk' false backup' backup_dir').resp =
      Except.ok r₂) :
    r₂.duplicates_removed = 0 := by
  have hfiles : (compact_duplicates cfg st client now runStamp (fun _ => true)
      false backup backup_dir).state.files =
      st.files.filter (fun f => !((filesToRemove st).contains f.path)) := by
    have hs := compact_ok_state cfg st client now runStamp (fun _ => true)
      backup backup_dir r₁ hok₁
    rw [hs]
    show st.files.filter (fun f =>
      !(((victimEntries st).filter (fun e => true)).map
        FileEntry.path).contains f.path) = _
    rw [List.filter_true]
    rfl
  have hrecs : loadedRecords (compact_duplicates cfg st client now runStamp
      (fun _ => true) false backup backup_dir).state =
      (loadedRecords st).filter (fun c => c ∉ victimRecs (loadedRecords st)) := by
    show ((compact_duplicates cfg st client now runStamp (fun _ => true)
      false backup backup_dir).state.files).map FileEntry.record = _
    rw [hfiles]
    exact newFiles_records st hid hnodid hnodpath
  have h2 := (compact_ok_spec cfg _ client' now' runStamp' moveOk' false
    backup' backup_dir' r₂ hok₂).1
  have hzero : filesToRemove (compact_duplicates cfg st client now runStamp
      (fun _ => true) false backup backup_dir).state = [] := by
    rw [filesToRemove, victimEntries, hrecs, find_after_removal]
    rfl
  rw [h2, hzero]
  rfl

/-- C8 witness: on the fixture store, the first backup run succeeds
(moving the older duplicate) and a second run on the resulting store
removes nothing. -/
theorem compaction_idempotent_witness :
    (⟨0, [], [], none, 0, 1⟩ : CompactResult).duplicates_removed = 0 :=
  compaction_idempotent fixCfg fixStore "client" "other" 0 0 "stamp" "stamp2"
    (fun _ => true) true true none none fixResultOk ⟨0, [], [], none, 0, 1⟩
    (by decide) (by decide) (by decide) (by decide) (by decide)
